import Mathlib

/-!
# Overlays verification

A shallow embedding of `src/lib/features/overlays/Overlays.js`, the overlay
manager of this repository, together with proofs of the specified properties.

Modelling conventions:
* JS numbers used for diagram geometry are modelled by `Int`; zoom scales and
  viewbox coordinates (which are fractional, e.g. `0.7`, `5.0`) by `Rat`.
* The mutable maps `_overlays` (overlay-id → overlay) and `_overlayContainers`
  (element-id → container) are association lists in insertion order, matching
  JS object key insertion order for the non-integer-like keys used here.
* In JS the overlay records are shared by reference between `_overlays` and
  each container's `overlays` array, and are mutated in place.  We keep the
  single authoritative copy of every record in the `overlays` association
  list and let each container store the (unique) ids of its overlays; the
  container's `overlays` sequence of the source is recovered by looking the
  ids up (`attachedOverlays`).
* jQuery `show`/`hide` on a wrapper is modelled by the wrapper's `visible`
  flag; `css({left, top})` by the `cssLeft`/`cssTop` fields.
* Synchronous `throw` of validation errors in `add` is modelled by returning
  `Except.error msg` together with the unchanged state.
-/

namespace Overlays

/-! ## JS object primitives

JS objects keyed by strings keep insertion order; assignment to an existing
key replaces the value in place, assignment to a fresh key appends, and
`delete` removes the entry.  We model them by association lists with these
primitives. -/

/-- `obj[k]`, possibly `undefined`. -/
def alookup {α β : Type} [DecidableEq α] (l : List (α × β)) (k : α) : Option β :=
  (l.find? (fun p => p.1 = k)).map Prod.snd

/-- `obj[k] = v`: replace in place when the key exists, append otherwise. -/
def setKey {α β : Type} [DecidableEq α] (l : List (α × β)) (k : α) (v : β) :
    List (α × β) :=
  if l.any (fun p => p.1 = k) then l.map (fun p => if p.1 = k then (k, v) else p)
  else l ++ [(k, v)]

/-- `delete obj[k]`. -/
def eraseKey {α β : Type} [DecidableEq α] (l : List (α × β)) (k : α) :
    List (α × β) :=
  l.filter (fun p => ¬ p.1 = k)

/-- Update the value at key `k` in place (no-op when the key is absent). -/
def mapValueAt {α β : Type} [DecidableEq α] (l : List (α × β)) (k : α)
    (g : β → β) : List (α × β) :=
  l.map (fun p => if p.1 = k then (p.1, g p.2) else p)

/-- Update the values at all keys in `ks` in place. -/
def mapValueMem {α β : Type} [DecidableEq α] (l : List (α × β)) (ks : List α)
    (g : β → β) : List (α × β) :=
  l.map (fun p => if p.1 ∈ ks then (p.1, g p.2) else p)

/-- A 2-d point, as used for connection waypoints. -/
structure Point where
  x : Int
  y : Int
deriving DecidableEq, Repr

/-- A diagram element as the overlay code observes it: id, position, size and
an optional waypoint list (present exactly for connection-like elements; the
source tests plain truthiness of `element.waypoints`). -/
structure Element where
  id : String
  x : Int
  y : Int
  width : Int
  height : Int
  waypoints : Option (List Point)
deriving DecidableEq, Repr

/-- An axis-aligned bounding box. -/
structure BBox where
  x : Int
  y : Int
  width : Int
  height : Int
deriving DecidableEq, Repr

/-- Modelled from the spec: `getBBox` comes from `../../util/Elements`, which
is not under the provided sources.  The spec describes it as "min/max
reduction over waypoints to produce x, y, width, height" for waypoint-bearing
elements, and for plain elements the element's own rectangle.  An empty
waypoint list yields the degenerate zero box. -/
def getBBox (e : Element) : BBox :=
  match e.waypoints with
  | some (p :: ps) =>
      let minX := ps.foldl (fun m q => min m q.x) p.x
      let minY := ps.foldl (fun m q => min m q.y) p.y
      let maxX := ps.foldl (fun m q => max m q.x) p.x
      let maxY := ps.foldl (fun m q => max m q.y) p.y
      { x := minX, y := minY, width := maxX - minX, height := maxY - minY }
  | some [] => { x := 0, y := 0, width := 0, height := 0 }
  | none => { x := e.x, y := e.y, width := e.width, height := e.height }

/-- The width used by `_updateOverlay` for a `position.right` offset:
`element.waypoints ? getBBox(element).width : element.width`. -/
def effectiveWidth (e : Element) : Int :=
  if e.waypoints.isSome then (getBBox e).width else e.width

/-- The height used by `_updateOverlay` for a `position.bottom` offset. -/
def effectiveHeight (e : Element) : Int :=
  if e.waypoints.isSome then (getBBox e).height else e.height

/-- An overlay position: one or two of `{left, top, right, bottom}`
(`undefined` fields are `none`). -/
structure Position where
  left : Option Int := none
  top : Option Int := none
  right : Option Int := none
  bottom : Option Int := none
deriving DecidableEq, Repr

/-- A `show` visibility policy: `trigger` (`'automatic'` or `'manual'`),
`minZoom`, `maxZoom`. -/
structure ShowPolicy where
  trigger : String
  minZoom : Rat
  maxZoom : Rat
deriving DecidableEq, Repr

/-- The built-in `_overlayDefaults.show` value (`0.7` is the rational
`7/10`, written via `mkRat` to keep it kernel-computable). -/
def defaultShow : ShowPolicy :=
  { trigger := "automatic", minZoom := mkRat 7 10, maxZoom := 5 }

/-- Modelled from the spec: overlay ids come from `../../util/IdGenerator`
(not under the provided sources), "a monotonic counter scoped to this module
instance" with the fixed `'ov'` tag.  The JS rendering `"ov-<n>"` is
injective in the counter value `n`; we capture the id as the tag together
with that counter value, so that id equality is exactly equality of the
counter values. -/
structure OverlayId where
  tag : String
  seq : Nat
deriving DecidableEq, Repr

/-- Modelled from the spec: `ids.next()` returns a fresh id from the counter
and bumps the counter. -/
def nextId (counter : Nat) : OverlayId × Nat :=
  ({ tag := "ov", seq := counter }, counter + 1)

/-- An overlay record as assembled by `add`/`_addOverlay`: the forced fields
`{id, type, element, html}` merged over the caller's configuration over the
defaults, plus the wrapper (`htmlContainer`) state: its css offsets and its
jQuery shown/hidden flag. -/
structure Overlay where
  id : OverlayId
  type : Option String
  elementId : String
  html : String
  position : Position
  /-- the record's `show` field (`show` is a Lean keyword, hence the name) -/
  showPolicy : Option ShowPolicy
  cssLeft : Int
  cssTop : Int
  visible : Bool
deriving DecidableEq, Repr

/-- An overlay container (one per element that has had an overlay): its css
anchor and the ids of the overlays in its `overlays` array, in insertion
order. -/
structure OContainer where
  cssLeft : Int
  cssTop : Int
  overlayIds : List OverlayId
deriving DecidableEq, Repr

/-- A viewbox as carried by `canvas.viewbox.changed`. -/
structure Viewbox where
  x : Rat
  y : Rat
  scale : Rat
deriving DecidableEq, Repr

/-- The manager's state: the id-generator counter, the `_overlays` map, the
`_overlayContainers` map, the shown/hidden state of the overlay root, and the
root's css transform `(a, d, tx, ty)`. -/
structure State where
  counter : Nat
  overlays : List (OverlayId × Overlay)
  containers : List (String × OContainer)
  rootVisible : Bool
  rootTransform : Rat × Rat × Rat × Rat
deriving DecidableEq, Repr

/-- The state right after construction. -/
def initialState : State :=
  { counter := 0, overlays := [], containers := [], rootVisible := true,
    rootTransform := (1, 1, 0, 0) }

/-- Look an overlay up in the `_overlays` map. -/
def lookupOverlay (s : State) (i : OverlayId) : Option Overlay :=
  alookup s.overlays i

/-- Look a container up in the `_overlayContainers` map
(`_getOverlayContainer` with `raw = true`). -/
def lookupContainer (s : State) (elementId : String) : Option OContainer :=
  alookup s.containers elementId

/-- The container's `overlays` sequence of the source, reconstructed from the
stored ids: the overlay records attached to the given element, in insertion
order. -/
def attachedOverlays (s : State) (elementId : String) : List Overlay :=
  match lookupContainer s elementId with
  | none => []
  | some c => c.overlayIds.filterMap (lookupOverlay s)

/-! ## `get` -/

/-- A `get`/`remove` search argument: a bare id string, or a search record
(`{element}`, `{element, type}`, or `{type}`; a record with only an `id` key
behaves like the bare id, and a record with none of the keys yields `null`,
which we fold into `byId` with an id that is never issued). -/
inductive Search where
  | byId (i : OverlayId)
  | byElement (elementId : String) (type? : Option String)
  | byType (type : String)
deriving DecidableEq, Repr

/-- `get` when searching by element (+ optional type): resolve the container
raw; if none, the empty list; else the container's overlays, filtered by
`type` when given (lodash `filter` with the `{type}` matcher), otherwise a
shallow copy of the `overlays` array. -/
def getByElement (s : State) (elementId : String) (type? : Option String) :
    List Overlay :=
  match lookupContainer s elementId with
  | none => []
  | some c =>
      let ovs := c.overlayIds.filterMap (lookupOverlay s)
      match type? with
      | some t => ovs.filter (fun o => o.type = some t)
      | none => ovs

/-- `get` when searching by type alone: lodash `filter` over the `_overlays`
map, i.e. its values in insertion order with matching `type`. -/
def getByType (s : State) (t : String) : List Overlay :=
  (s.overlays.map Prod.snd).filter (fun o => o.type = some t)

/-- `get` when searching by id: `this._overlays[search.id]`, possibly
`undefined` (`none`). -/
def getById (s : State) (i : OverlayId) : Option Overlay :=
  lookupOverlay s i

/-- `remove` normalises `this.get(filter) || []` to a list: a single
overlay-or-`undefined` result is wrapped, a list result is kept. -/
def getAsList (s : State) : Search → List Overlay
  | .byId i => (getById s i).toList
  | .byElement e t => getByElement s e t
  | .byType t => getByType s t

/-! ## Positioning (`_updateOverlay`, `_updateOverlayContainer`) -/

/-- The wrapper offset computed by `_updateOverlay`: left/top from the
position, with `right`/`bottom` (when defined) overriding them against the
element's effective width/height; missing values default to 0
(`left || 0`, `top || 0`). -/
def updateOverlayPos (e : Element) (pos : Position) : Int × Int :=
  let left :=
    match pos.right with
    | some r => some (-r + effectiveWidth e)
    | none => pos.left
  let top :=
    match pos.bottom with
    | some b => some (-b + effectiveHeight e)
    | none => pos.top
  (left.getD 0, top.getD 0)

/-- `_updateOverlay` on a stored record: recompute the wrapper's css offsets
from the element and the record's position. -/
def applyOverlayPos (e : Element) (o : Overlay) : Overlay :=
  let lt := updateOverlayPos e o.position
  { o with cssLeft := lt.1, cssTop := lt.2 }

/-- `_updateOverlayContainer`: the container anchors at the element's
`(x, y)`, or at the bounding box's `(x, y)` for waypoint elements. -/
def containerAnchor (e : Element) : Int × Int :=
  if e.waypoints.isSome then ((getBBox e).x, (getBBox e).y) else (e.x, e.y)

/-! ## `add` -/

/-- An element argument to `add`: an element object, or an id string to be
resolved through the element registry (the source keeps the argument when
`element.id` is truthy and otherwise resolves it via
`elementRegistry.get`). -/
inductive ElementRef where
  | byObject (e : Element)
  | byId (i : String)
deriving Repr

/-- The element-resolution step of `add`.  An object with a truthy (nonempty)
id is kept as is; an id string (or an object with an empty id) goes through
the registry, which may yield nothing. -/
def resolveElement (reg : String → Option Element) : ElementRef → Option Element
  | .byObject e => if e.id = "" then none else some e
  | .byId i => reg i

/-- The caller-supplied overlay configuration.  `html` is the raw markup
(`""` is falsy and counts as missing, like `undefined`).  `position` is
`none` when absent.  `showPolicy?` is `none` when the `show` key is absent
(the default then applies) and `some none` when the key is present but set
to a falsy value. -/
structure OverlayInput where
  position : Option Position
  html : String
  showPolicy? : Option (Option ShowPolicy) := none
deriving Repr

/-- `_createOverlayContainer` (minus the DOM): a fresh container anchored via
`_updateOverlayContainer`, with an empty `overlays` array. -/
def createContainer (e : Element) : OContainer :=
  let a := containerAnchor e
  { cssLeft := a.1, cssTop := a.2, overlayIds := [] }

/-- `_getOverlayContainer(element)` without `raw`: reuse the element's
container or create and register a fresh one. -/
def getOrCreateContainer (s : State) (e : Element) : State :=
  match lookupContainer s e.id with
  | some _ => s
  | none => { s with containers := setKey s.containers e.id (createContainer e) }

/-- Append an id to the element's container's `overlays` array
(`container.overlays.push(overlay)`). -/
def pushOverlayId (s : State) (elementId : String) (i : OverlayId) : State :=
  { s with containers := (mapValueAt s.containers elementId
      (fun c => { c with overlayIds := c.overlayIds ++ [i] })) }

/-- `add(element, type, overlay)`.  Validation: missing `position`, then
missing `html`, then an unresolved element each throw; on success the record
is assembled (defaults `<` caller configuration `<` forced fields), a fresh
id is drawn, `_addOverlay` containers/indexes it and `_updateOverlay`
positions it.  The state is returned unchanged alongside an error. -/
def add (reg : String → Option Element) (s : State) (ref : ElementRef)
    (type? : Option String) (inp : OverlayInput) :
    Except String OverlayId × State :=
  let element? := resolveElement reg ref
  match inp.position with
  | none => (.error "must specifiy overlay position", s)
  | some pos =>
    if inp.html = "" then (.error "must specifiy overlay html", s)
    else match element? with
    | none => (.error "invalid element specified", s)
    | some e =>
        let (i, counter) := nextId s.counter
        let lt := updateOverlayPos e pos
        let record : Overlay :=
          { id := i, type := type?, elementId := e.id, html := inp.html,
            position := pos,
            showPolicy := inp.showPolicy?.getD (some defaultShow),
            cssLeft := lt.1, cssTop := lt.2, visible := true }
        let s := { s with counter := counter }
        let s := getOrCreateContainer s e
        let s := pushOverlayId s e.id i
        let s := { s with overlays := setKey s.overlays i record }
        (.ok i, s)

/-! ## `remove` -/

/-- The body of `remove`'s `forEach`: look the overlay's container up raw,
delete the record from the `_overlays` map, and splice it out of the
container's `overlays` array when present (`indexOf`/`splice`, i.e. erase
the first occurrence). -/
def removeOne (s : State) (o : Overlay) : State :=
  let s := { s with overlays := eraseKey s.overlays o.id }
  { s with containers := (mapValueAt s.containers o.elementId
      (fun c => { c with overlayIds := c.overlayIds.erase o.id })) }

/-- `remove(filter)`: resolve the matching overlays via `get` and remove
each. -/
def remove (s : State) (search : Search) : State :=
  (getAsList s search).foldl removeOne s

/-! ## `show` / `hide` and viewbox synchronisation -/

/-- `show()`: un-hide the overlay root. -/
def showRoot (s : State) : State := { s with rootVisible := true }

/-- `hide()`: hide the overlay root. -/
def hideRoot (s : State) : State := { s with rootVisible := false }

/-- `_updateRoot`: the root's css transform `matrix(a,0,0,d,tx,ty)` with
`a = d = viewbox.scale || 1`, `tx = -x*a`, `ty = -y*d`. -/
def updateRoot (s : State) (vb : Viewbox) : State :=
  let a := if vb.scale = 0 then 1 else vb.scale
  { s with rootTransform := (a, a, -vb.x * a, -vb.y * a) }

/-- One overlay's step of `_updateOverlayVisibilty`: records with a truthy
`show` are hidden when the scale lies outside `[minZoom, maxZoom]` and shown
otherwise; records without a `show` policy are untouched. -/
def applyVisibility (scale : Rat) (o : Overlay) : Overlay :=
  match o.showPolicy with
  | some sh =>
      if sh.minZoom > scale ∨ sh.maxZoom < scale then { o with visible := false }
      else { o with visible := true }
  | none => o

/-- `_updateOverlayVisibilty(viewbox)`: reconcile every overlay's wrapper
visibility against the viewbox scale. -/
def updateOverlayVisibilty (s : State) (vb : Viewbox) : State :=
  { s with overlays := s.overlays.map (fun p => (p.1, applyVisibility vb.scale p.2)) }

/-! ## Event handlers (`_init`) -/

/-- The body of the (possibly debounced) `updateViewbox` closure:
`_updateRoot`, then `_updateOverlayVisibilty`, then `show()`. -/
def fireUpdate (s : State) (vb : Viewbox) : State :=
  showRoot (updateOverlayVisibilty (updateRoot s vb) vb)

/-- The `shape.remove` / `connection.remove` handler: collect the element's
overlays via `get({element})` and `remove` each by id. -/
def elementRemoveHandler (s : State) (elementId : String) : State :=
  (getByElement s elementId none).foldl (fun s o => remove s (.byId o.id)) s

/-- The `element.changed` handler: when the element has a (raw) container,
`_updateOverlay` every overlay in it against the element's current geometry
and `_updateOverlayContainer` the container's anchor.  (In JS the handlers
reposition the very records held in the container's `overlays` array; here
those records live in the `overlays` map under their unique ids.) -/
def elementChangedHandler (s : State) (e : Element) : State :=
  match lookupContainer s e.id with
  | none => s
  | some c =>
      let s := { s with overlays := mapValueMem s.overlays c.overlayIds (applyOverlayPos e) }
      let a := containerAnchor e
      { s with containers := (mapValueAt s.containers e.id
          (fun c => { c with cssLeft := a.1, cssTop := a.2 })) }

/-! ## The debounced viewbox-changed loop

The `canvas.viewbox.changed` handler synchronously calls `this.hide()` and
then `updateViewbox(event.viewbox)`; with `deferUpdate` at its default the
closure is `debounce(updateViewbox, 300)` — trailing-edge only, each call
replacing the pending timer with a new one a full window after it.  We model
the single-threaded event loop over discrete time: a pending trailing call is
`some (deadline, viewbox)`; an incoming event first lets an expired pending
call fire, then hides the root and re-schedules. -/

/-- The debounce window of the source, in milliseconds. -/
def debounceWait : Nat := 300

/-- The synchronous part of the `canvas.viewbox.changed` handler plus the
debounce bookkeeping: hide the root and replace any pending trailing call by
one at `now + w` carrying this event's viewbox. -/
def onViewboxChanged (w : Nat) (s : State) (now : Nat) (vb : Viewbox) :
    State × Option (Nat × Viewbox) :=
  (hideRoot s, some (now + w, vb))

/-- Run the event loop over a time-stamped list of `canvas.viewbox.changed`
events, starting from state `s` and pending trailing call `pend`.  Before
each event the pending call fires if its deadline has passed; after the last
event the remaining pending call fires.  Returns the final state together
with the trailing-call invocations that actually ran: each is the
`(time, viewbox)` of one `updateViewbox` execution, i.e. of one
`_updateOverlayVisibilty` pass. -/
def runViewboxEvents (w : Nat) (s : State) (pend : Option (Nat × Viewbox)) :
    List (Nat × Viewbox) → State × List (Nat × Viewbox)
  | [] =>
      match pend with
      | none => (s, [])
      | some (d, v) => (fireUpdate s v, [(d, v)])
  | (t, vb) :: rest =>
      let fired :=
        match pend with
        | some (d, v) => if d ≤ t then some (d, v) else none
        | none => none
      match fired with
      | some (d, v) =>
          let s := fireUpdate s v
          let (s, p) := onViewboxChanged w s t vb
          let r := runViewboxEvents w s p rest
          (r.1, (d, v) :: r.2)
      | none =>
          let (s, p) := onViewboxChanged w s t vb
          runViewboxEvents w s p rest

/-! ## Derived notions and well-formedness -/

/-- The disjunction of `add`'s three validation failures: unresolved element,
missing `position`, missing (falsy) `html`. -/
def addFails (reg : String → Option Element) (ref : ElementRef)
    (inp : OverlayInput) : Prop :=
  resolveElement reg ref = none ∨ inp.position = none ∨ inp.html = ""

/-- Whether an overlay's wrapper is actually on screen: jQuery-hiding the
root hides every descendant wrapper, so the wrapper shows iff both the root
and the wrapper itself are shown. -/
def effectiveVisible (s : State) (o : Overlay) : Bool :=
  s.rootVisible && o.visible

/-- The state invariants every reachable manager state satisfies: the two
maps have no duplicate keys, each overlay record is stored under its own id,
and each container lists pairwise-distinct ids of overlays that are attached
to that container's element. -/
def WF (s : State) : Prop :=
  (s.overlays.map Prod.fst).Nodup ∧
  (∀ p ∈ s.overlays, p.2.id = p.1) ∧
  (s.containers.map Prod.fst).Nodup ∧
  ∀ p ∈ s.containers, p.2.overlayIds.Nodup ∧
    ∀ i ∈ p.2.overlayIds,
      ((lookupOverlay s i).map Overlay.elementId).getD p.1 = p.1

instance (s : State) : Decidable (WF s) := by
  unfold WF; infer_instance

/-! ## Concrete fixtures

A small concrete scenario used by the witness theorems: one plain shape and
one connection in the registry, and a couple of overlay configurations. -/

/-- A plain rectangular element. -/
def elemA : Element :=
  { id := "s1", x := 10, y := 20, width := 100, height := 50, waypoints := none }

/-- A waypoint-bearing (connection) element. -/
def elemC : Element :=
  { id := "c1", x := 0, y := 0, width := 0, height := 0,
    waypoints := some [⟨0, 40⟩, ⟨60, 40⟩, ⟨60, 90⟩] }

/-- A registry resolving the two fixture elements. -/
def regA : String → Option Element := fun i =>
  if i = "s1" then some elemA else if i = "c1" then some elemC else none

/-- A valid overlay configuration using `right`/`bottom` offsets. -/
def inpA : OverlayInput :=
  { position := some { left := none, top := none, right := some 10, bottom := some 5 },
    html := "<div/>" }

/-- A valid overlay configuration with the `show` policy of the spec's
zoom-range scenario. -/
def inpShow : OverlayInput :=
  { position := some { left := some 0, top := some 0, right := none, bottom := none },
    html := "<div/>",
    showPolicy? := some (some { trigger := "automatic", minZoom := 1, maxZoom := 2 }) }

/-- The state after adding `inpA` to the shape `s1`. -/
def stA : State :=
  (add regA initialState (.byId "s1") (some "badge") inpA).2

/-- The id returned by that first `add`. -/
def idA : OverlayId := { tag := "ov", seq := 0 }

/-- The state after further adding `inpShow` to `s1`. -/
def stB : State :=
  (add regA stA (.byObject elemA) none inpShow).2

/-- The id returned by the second `add`. -/
def idB : OverlayId := { tag := "ov", seq := 1 }

/-- A viewbox with the given scale. -/
def vbAt (scale : Rat) : Viewbox := { x := 0, y := 0, scale := scale }

/-- `elemA` after a move/resize, as carried by an `element.changed` event. -/
def elemA2 : Element := { elemA with width := 200, height := 80 }

/-- The overlay record stored in `stA` under `idA`. -/
def ovA : Overlay :=
  { id := idA, type := some "badge", elementId := "s1", html := "<div/>",
    position := { left := none, top := none, right := some 10, bottom := some 5 },
    showPolicy := some defaultShow, cssLeft := 90, cssTop := 45, visible := true }

/-- The overlay record stored in `stB` under `idB`. -/
def ovB : Overlay :=
  { id := idB, type := none, elementId := "s1", html := "<div/>",
    position := { left := some 0, top := some 0, right := none, bottom := none },
    showPolicy := some { trigger := "automatic", minZoom := 1, maxZoom := 2 },
    cssLeft := 0, cssTop := 0, visible := true }

/-- A concrete state holding a single manual-trigger overlay whose wrapper is
currently shown: `show = { trigger: 'manual', minZoom: 1, maxZoom: 2 }`. -/
def stManual : State :=
  (add regA initialState (.byId "s1") none
    { position := some { left := some 0, top := none, right := none, bottom := none },
      html := "<div/>",
      showPolicy? := some (some { trigger := "manual", minZoom := 1, maxZoom := 2 }) }).2

/-! ## Association-list lemmas -/

theorem alookup_cons {α β : Type} [DecidableEq α] (p : α × β) (l : List (α × β))
    (k : α) : alookup (p :: l) k = if p.1 = k then some p.2 else alookup l k := by
  by_cases h : p.1 = k
  · simp [alookup, List.find?_cons_of_pos, h]
  · simp [alookup, List.find?_cons_of_neg, h]

theorem alookup_mem {α β : Type} [DecidableEq α] {l : List (α × β)} {k : α}
    {v : β} (h : alookup l k = some v) : (k, v) ∈ l := by
  induction l with
  | nil => simp [alookup] at h
  | cons p t ih =>
    rw [alookup_cons] at h
    split at h
    · injection h with hv
      subst hv
      obtain ⟨a, b⟩ := p
      rename_i heq
      simp only at heq
      subst heq
      exact List.mem_cons_self _ _
    · exact List.mem_cons_of_mem _ (ih h)

theorem eraseKey_cons {α β : Type} [DecidableEq α] (p : α × β) (l : List (α × β))
    (k : α) :
    eraseKey (p :: l) k = if p.1 = k then eraseKey l k else p :: eraseKey l k := by
  by_cases h : p.1 = k <;> simp [eraseKey, List.filter_cons, h]

theorem alookup_eraseKey_self {α β : Type} [DecidableEq α] (l : List (α × β))
    (k : α) : alookup (eraseKey l k) k = none := by
  induction l with
  | nil => rfl
  | cons p t ih =>
    rw [eraseKey_cons]
    by_cases h : p.1 = k
    · rw [if_pos h]
      exact ih
    · rw [if_neg h, alookup_cons, if_neg h]
      exact ih

theorem alookup_eraseKey_ne {α β : Type} [DecidableEq α] (l : List (α × β))
    {k k' : α} (h : k' ≠ k) : alookup (eraseKey l k) k' = alookup l k' := by
  induction l with
  | nil => rfl
  | cons p t ih =>
    rw [eraseKey_cons]
    by_cases hp : p.1 = k
    · rw [if_pos hp, alookup_cons, if_neg (fun hh : p.1 = k' => h (hh ▸ hp ▸ rfl))]
      · exact ih
    · rw [if_neg hp, alookup_cons, alookup_cons, ih]

theorem alookup_replace_self {α β : Type} [DecidableEq α] (l : List (α × β))
    (k : α) (v : β) (hany : l.any (fun p => p.1 = k)) :
    alookup (l.map (fun p => if p.1 = k then (k, v) else p)) k = some v := by
  induction l with
  | nil => simp at hany
  | cons p t ih =>
    simp only [List.any_cons, Bool.or_eq_true, decide_eq_true_eq] at hany
    by_cases hp : p.1 = k
    · simp only [List.map_cons, if_pos hp, alookup_cons]
      simp
    · simp only [List.map_cons, if_neg hp, alookup_cons, if_neg hp]
      exact ih (hany.resolve_left hp)

theorem alookup_replace_ne {α β : Type} [DecidableEq α] (l : List (α × β))
    {k k' : α} (v : β) (h : k' ≠ k) :
    alookup (l.map (fun p => if p.1 = k then (k, v) else p)) k' = alookup l k' := by
  induction l with
  | nil => rfl
  | cons p t ih =>
    by_cases hp : p.1 = k
    · simp only [List.map_cons, if_pos hp, alookup_cons]
      rw [if_neg (fun hh : k = k' => h hh.symm), if_neg (fun hh : p.1 = k' => h (hh ▸ hp ▸ rfl)), ih]
    · simp only [List.map_cons, if_neg hp, alookup_cons]
      rw [ih]

theorem alookup_append_single_ne {α β : Type} [DecidableEq α] (l : List (α × β))
    {k k' : α} (v : β) (h : k' ≠ k) :
    alookup (l ++ [(k, v)]) k' = alookup l k' := by
  induction l with
  | nil =>
    simp only [List.nil_append]
    rw [alookup_cons, if_neg (fun hh : k = k' => h hh.symm)]
  | cons p t ih =>
    rw [List.cons_append, alookup_cons, alookup_cons, ih]

theorem alookup_eq_none_of_not_any {α β : Type} [DecidableEq α]
    {l : List (α × β)} {k : α} (h : ¬ l.any (fun p => p.1 = k)) :
    alookup l k = none := by
  induction l with
  | nil => rfl
  | cons p t ih =>
    simp only [List.any_cons, Bool.or_eq_true, decide_eq_true_eq] at h
    push_neg at h
    rw [alookup_cons, if_neg h.1]
    exact ih (by simpa using h.2)

theorem alookup_append_of_none {α β : Type} [DecidableEq α] {l₁ : List (α × β)}
    (l₂ : List (α × β)) {k : α} (h : alookup l₁ k = none) :
    alookup (l₁ ++ l₂) k = alookup l₂ k := by
  induction l₁ with
  | nil => rfl
  | cons p t ih =>
    rw [alookup_cons] at h
    rw [List.cons_append, alookup_cons]
    split at h
    · exact absurd h (by simp)
    · rw [if_neg (by assumption)]
      exact ih h

theorem alookup_setKey_self {α β : Type} [DecidableEq α] (l : List (α × β))
    (k : α) (v : β) : alookup (setKey l k v) k = some v := by
  unfold setKey
  split
  · exact alookup_replace_self l k v (by assumption)
  · rw [alookup_append_of_none _ (alookup_eq_none_of_not_any (by assumption))]
    rw [alookup_cons, if_pos rfl]

theorem alookup_setKey_ne {α β : Type} [DecidableEq α] (l : List (α × β))
    {k k' : α} (v : β) (h : k' ≠ k) : alookup (setKey l k v) k' = alookup l k' := by
  unfold setKey
  split
  · exact alookup_replace_ne l v h
  · exact alookup_append_single_ne l v h

theorem alookup_mapValueAt_self {α β : Type} [DecidableEq α] (l : List (α × β))
    (k : α) (g : β → β) : alookup (mapValueAt l k g) k = (alookup l k).map g := by
  unfold mapValueAt
  induction l with
  | nil => rfl
  | cons p t ih =>
    by_cases hp : p.1 = k
    · simp only [List.map_cons, if_pos hp, alookup_cons, if_pos hp]
      rfl
    · simp only [List.map_cons, if_neg hp, alookup_cons, if_neg hp]
      exact ih

theorem alookup_mapValueAt_ne {α β : Type} [DecidableEq α] (l : List (α × β))
    {k k' : α} (g : β → β) (h : k' ≠ k) :
    alookup (mapValueAt l k g) k' = alookup l k' := by
  unfold mapValueAt
  induction l with
  | nil => rfl
  | cons p t ih =>
    by_cases hp : p.1 = k
    · simp only [List.map_cons, if_pos hp, alookup_cons,
        if_neg (fun hh : p.1 = k' => h (hh ▸ hp ▸ rfl))]
      exact ih
    · simp only [List.map_cons, if_neg hp, alookup_cons]
      rw [ih]

theorem alookup_mapValueMem_of_mem {α β : Type} [DecidableEq α]
    (l : List (α × β)) {ks : List α} {k : α} (g : β → β) (h : k ∈ ks) :
    alookup (mapValueMem l ks g) k = (alookup l k).map g := by
  unfold mapValueMem
  induction l with
  | nil => rfl
  | cons p t ih =>
    by_cases hp : p.1 = k
    · have hmem : p.1 ∈ ks := by rw [hp]; exact h
      simp only [List.map_cons, if_pos hmem, alookup_cons, if_pos hp]
      rfl
    · by_cases hm : p.1 ∈ ks
      · simp only [List.map_cons, if_pos hm, alookup_cons, if_neg hp]
        exact ih
      · simp only [List.map_cons, if_neg hm, alookup_cons, if_neg hp]
        exact ih

theorem alookup_mapValueMem_of_not_mem {α β : Type} [DecidableEq α]
    (l : List (α × β)) {ks : List α} {k : α} (g : β → β) (h : k ∉ ks) :
    alookup (mapValueMem l ks g) k = alookup l k := by
  unfold mapValueMem
  induction l with
  | nil => rfl
  | cons p t ih =>
    by_cases hm : p.1 ∈ ks
    · have hp : ¬ p.1 = k := fun hh => h (hh ▸ hm)
      simp only [List.map_cons, if_pos hm, alookup_cons, if_neg hp]
      exact ih
    · simp only [List.map_cons, if_neg hm, alookup_cons]
      rw [ih]

/-! ## State-level lemmas -/

theorem getOrCreateContainer_counter (s : State) (e : Element) :
    (getOrCreateContainer s e).counter = s.counter := by
  unfold getOrCreateContainer
  split <;> rfl

theorem getOrCreateContainer_overlays (s : State) (e : Element) :
    (getOrCreateContainer s e).overlays = s.overlays := by
  unfold getOrCreateContainer
  split <;> rfl

theorem getOrCreateContainer_rootVisible (s : State) (e : Element) :
    (getOrCreateContainer s e).rootVisible = s.rootVisible := by
  unfold getOrCreateContainer
  split <;> rfl

theorem lookupOverlay_removeOne (s : State) (o : Overlay) (j : OverlayId) :
    lookupOverlay (removeOne s o) j =
      if j = o.id then none else lookupOverlay s j := by
  unfold removeOne lookupOverlay
  by_cases h : j = o.id
  · rw [if_pos h, h]
    exact alookup_eraseKey_self _ _
  · rw [if_neg h]
    exact alookup_eraseKey_ne _ h

theorem lookupContainer_removeOne (s : State) (o : Overlay) (cid : String) :
    lookupContainer (removeOne s o) cid =
      if cid = o.elementId
      then (lookupContainer s cid).map
        (fun c => { c with overlayIds := c.overlayIds.erase o.id })
      else lookupContainer s cid := by
  unfold removeOne lookupContainer
  dsimp only
  by_cases h : cid = o.elementId
  · rw [if_pos h, h]
    exact alookup_mapValueAt_self s.containers o.elementId _
  · rw [if_neg h]
    exact alookup_mapValueAt_ne s.containers _ h

theorem removeOne_rootVisible (s : State) (o : Overlay) :
    (removeOne s o).rootVisible = s.rootVisible := rfl

theorem removeOne_counter (s : State) (o : Overlay) :
    (removeOne s o).counter = s.counter := rfl

theorem remove_byId_eq (s : State) (i : OverlayId) :
    remove s (.byId i) =
      match lookupOverlay s i with
      | none => s
      | some o => removeOne s o := by
  unfold remove getAsList getById
  cases h : lookupOverlay s i <;> simp [h, Option.toList]

theorem remove_byId_of_none (s : State) (i : OverlayId)
    (h : lookupOverlay s i = none) : remove s (.byId i) = s := by
  rw [remove_byId_eq, h]

theorem remove_byId_of_some (s : State) (i : OverlayId) (o : Overlay)
    (h : lookupOverlay s i = some o) : remove s (.byId i) = removeOne s o := by
  rw [remove_byId_eq, h]

theorem add_ok_spec (reg : String → Option Element) (s : State)
    (ref : ElementRef) (t : Option String) (inp : OverlayInput) (i : OverlayId)
    (s₂ : State) (h : add reg s ref t inp = (.ok i, s₂)) :
    ∃ pos e, inp.position = some pos ∧ resolveElement reg ref = some e ∧
      i = { tag := "ov", seq := s.counter } ∧
      s₂.counter = s.counter + 1 ∧
      s₂.rootVisible = s.rootVisible ∧
      lookupOverlay s₂ i = some
        { id := i, type := t, elementId := e.id, html := inp.html,
          position := pos,
          showPolicy := inp.showPolicy?.getD (some defaultShow),
          cssLeft := (updateOverlayPos e pos).1,
          cssTop := (updateOverlayPos e pos).2, visible := true } := by
  unfold add at h
  cases hpos : inp.position with
  | none =>
    rw [hpos] at h
    simp at h
  | some pos =>
    rw [hpos] at h
    dsimp only at h
    by_cases hh : inp.html = ""
    · rw [if_pos hh] at h
      simp at h
    · rw [if_neg hh] at h
      cases he : resolveElement reg ref with
      | none =>
        rw [he] at h
        simp at h
      | some e =>
        rw [he] at h
        simp only [nextId] at h
        simp only [Prod.mk.injEq, Except.ok.injEq] at h
        obtain ⟨hi, hs⟩ := h
        subst hi
        subst hs
        refine ⟨pos, e, rfl, rfl, rfl, ?_, ?_, ?_⟩
        · show (getOrCreateContainer { s with counter := s.counter + 1 } e).counter =
            s.counter + 1
          rw [getOrCreateContainer_counter]
        · show (getOrCreateContainer { s with counter := s.counter + 1 } e).rootVisible =
            s.rootVisible
          rw [getOrCreateContainer_rootVisible]
        · exact alookup_setKey_self
            ((pushOverlayId (getOrCreateContainer { s with counter := s.counter + 1 } e)
              e.id { tag := "ov", seq := s.counter }).overlays)
            { tag := "ov", seq := s.counter } _

/-! ## Claims -/

/-- C1: for every call to `add(element, type?, overlay)`: if the resolved
element is absent, or `overlay.position` is missing, or `overlay.html` is
missing, `add` fails with a validation error and adds nothing — the state,
including the id map, the container map and every container's overlays
sequence, is returned unchanged; otherwise it succeeds. -/
theorem add_validation (reg : String → Option Element) (s : State)
    (ref : ElementRef) (t : Option String) (inp : OverlayInput) :
    (addFails reg ref inp →
      ∃ msg, add reg s ref t inp = (Except.error msg, s)) ∧
    (¬ addFails reg ref inp →
      ∃ i s₂, add reg s ref t inp = (Except.ok i, s₂)) := by
  constructor
  · intro hf
    unfold add
    cases hpos : inp.position with
    | none => exact ⟨"must specifiy overlay position", rfl⟩
    | some pos =>
      dsimp only
      by_cases hh : inp.html = ""
      · rw [if_pos hh]
        exact ⟨"must specifiy overlay html", rfl⟩
      · rw [if_neg hh]
        cases he : resolveElement reg ref with
        | none => exact ⟨"invalid element specified", rfl⟩
        | some e =>
          exfalso
          unfold addFails at hf
          rw [hpos, he] at hf
          rcases hf with hf | hf | hf
          · exact Option.noConfusion hf
          · exact Option.noConfusion hf
          · exact hh hf
  · intro hf
    unfold addFails at hf
    push_neg at hf
    obtain ⟨h1, h2, h3⟩ := hf
    cases hpos : inp.position with
    | none => exact absurd hpos h2
    | some pos =>
      cases he : resolveElement reg ref with
      | none => exact absurd he h1
      | some e =>
        cases hr : add reg s ref t inp with
        | mk r s₂ =>
          cases r with
          | ok i => exact ⟨i, s₂, rfl⟩
          | error msg =>
            exfalso
            unfold add at hr
            rw [hpos] at hr
            dsimp only at hr
            rw [if_neg h3, he] at hr
            simp at hr

/-- C1 witness: a concrete failing call (no `position`) errors and leaves
the state untouched, and a concrete valid call succeeds. -/
theorem add_validation_witness :
    (∃ msg, add regA initialState (.byId "s1") none
      { position := none, html := "x" } = (Except.error msg, initialState)) ∧
    (∃ i s₂, add regA initialState (.byId "s1") none inpA =
      (Except.ok i, s₂)) := by
  constructor
  · exact (add_validation regA initialState (.byId "s1") none
      { position := none, html := "x" }).1 (by unfold addFails; decide)
  · exact (add_validation regA initialState (.byId "s1") none inpA).2
      (by unfold addFails; decide)

/-! ### C5: fresh ids, immediate `get` -/

theorem foldl_removeOne_counter (l : List Overlay) :
    ∀ s : State, (l.foldl removeOne s).counter = s.counter := by
  induction l with
  | nil => intro s; rfl
  | cons o t ih =>
    intro s
    rw [List.foldl_cons, ih (removeOne s o), removeOne_counter]

theorem remove_counter (s : State) (x : Search) :
    (remove s x).counter = s.counter := by
  unfold remove
  exact foldl_removeOne_counter _ s

theorem foldl_remove_byId_counter (l : List Overlay) :
    ∀ s : State,
      (l.foldl (fun s o => remove s (.byId o.id)) s).counter = s.counter := by
  induction l with
  | nil => intro s; rfl
  | cons o t ih =>
    intro s
    rw [List.foldl_cons, ih, remove_counter]

theorem elementRemoveHandler_counter (s : State) (eid : String) :
    (elementRemoveHandler s eid).counter = s.counter := by
  unfold elementRemoveHandler
  exact foldl_remove_byId_counter _ s

theorem elementChangedHandler_counter (s : State) (e : Element) :
    (elementChangedHandler s e).counter = s.counter := by
  unfold elementChangedHandler
  split <;> rfl

theorem fireUpdate_counter (s : State) (vb : Viewbox) :
    (fireUpdate s vb).counter = s.counter := rfl

/-- C5: a valid `add` returns the id rendered from the current counter value
and bumps the counter; since no other operation (`remove`, the removal and
change handlers, the debounced update pass) ever touches the counter, every
id returned by an earlier `add` in the manager's lifetime came from a
strictly smaller counter value and therefore differs from this one.
Immediately after `add` returns, `get(id)` returns the overlay record that
was just added. -/
theorem add_unique_id_get (reg : String → Option Element) (s : State)
    (ref : ElementRef) (t : Option String) (inp : OverlayInput) (i : OverlayId)
    (s₂ : State) (h : add reg s ref t inp = (.ok i, s₂)) :
    i = { tag := "ov", seq := s.counter } ∧
    s₂.counter = s.counter + 1 ∧
    (∀ k, k < s.counter → ({ tag := "ov", seq := k } : OverlayId) ≠ i) ∧
    (∃ o, getById s₂ i = some o ∧ o.id = i ∧ o.type = t ∧ o.html = inp.html ∧
      inp.position = some o.position) ∧
    (∀ (s' : State) (x : Search), (remove s' x).counter = s'.counter) ∧
    (∀ (s' : State) (eid : String),
      (elementRemoveHandler s' eid).counter = s'.counter) ∧
    (∀ (s' : State) (e : Element),
      (elementChangedHandler s' e).counter = s'.counter) ∧
    (∀ (s' : State) (vb : Viewbox), (fireUpdate s' vb).counter = s'.counter) := by
  obtain ⟨pos, e, hpos, he, hi, hc, hr, hl⟩ := add_ok_spec reg s ref t inp i s₂ h
  refine ⟨hi, hc, ?_, ?_, remove_counter, elementRemoveHandler_counter,
    elementChangedHandler_counter, fireUpdate_counter⟩
  · intro k hk hcontra
    rw [hi] at hcontra
    have : k = s.counter := congrArg OverlayId.seq hcontra
    omega
  · exact ⟨_, hl, rfl, rfl, rfl, hpos⟩

/-- C5 witness: the second `add` of the fixture run returns `ov-1`, distinct
from the first returned id `ov-0`, and `get` on it immediately yields the
added record. -/
theorem add_unique_id_get_witness :
    idB = { tag := "ov", seq := stA.counter } ∧
    idA ≠ idB ∧
    ∃ o, getById stB idB = some o ∧ o.id = idB := by
  have h := add_unique_id_get regA stA (.byObject elemA) none inpShow idB stB
    (by rfl)
  refine ⟨h.1, h.2.2.1 0 (by decide), ?_⟩
  obtain ⟨o, h1, h2, _⟩ := h.2.2.2.1
  exact ⟨o, h1, h2⟩

/-! ### C2: `right`/`bottom` offsets -/

theorem updateOverlayPos_right (e : Element) (pos : Position) (r : Int)
    (hr : pos.right = some r) :
    (updateOverlayPos e pos).1 = effectiveWidth e - r := by
  unfold updateOverlayPos
  rw [hr]
  dsimp only [Option.getD]
  omega

theorem updateOverlayPos_bottom (e : Element) (pos : Position) (b : Int)
    (hb : pos.bottom = some b) :
    (updateOverlayPos e pos).2 = effectiveHeight e - b := by
  unfold updateOverlayPos
  rw [hb]
  dsimp only [Option.getD]
  omega

theorem elementChangedHandler_of_none (s : State) (e : Element)
    (hc : lookupContainer s e.id = none) : elementChangedHandler s e = s := by
  unfold elementChangedHandler
  rw [hc]

theorem lookupContainer_elementChangedHandler (s : State) (e : Element)
    (c : OContainer) (hc : lookupContainer s e.id = some c) :
    lookupContainer (elementChangedHandler s e) e.id =
      some { c with cssLeft := (containerAnchor e).1,
                    cssTop := (containerAnchor e).2 } := by
  unfold elementChangedHandler
  rw [hc]
  dsimp only
  unfold lookupContainer
  dsimp only
  rw [alookup_mapValueAt_self, show alookup s.containers e.id = some c from hc]
  rfl

theorem lookupOverlay_elementChangedHandler_mem (s : State) (e : Element)
    (c : OContainer) (hc : lookupContainer s e.id = some c) (j : OverlayId)
    (hj : j ∈ c.overlayIds) :
    lookupOverlay (elementChangedHandler s e) j =
      (lookupOverlay s j).map (applyOverlayPos e) := by
  unfold elementChangedHandler
  rw [hc]
  dsimp only
  unfold lookupOverlay
  dsimp only
  exact alookup_mapValueMem_of_mem _ _ hj

/-- C2: for an overlay attached with `position.right = r`, the wrapper's
effective left offset equals the element's effective width (bounding-box
width for waypoint elements) minus `r` — both in the record produced by
`add` and, for every overlay in the element's container, after any
`element.changed` event carrying the element's new geometry; `position.bottom`
mirrors against the effective height. -/
theorem right_bottom_offset (reg : String → Option Element) (s : State)
    (ref : ElementRef) (t : Option String) (inp : OverlayInput) (i : OverlayId)
    (s₂ : State) (e : Element) (r b : Int)
    (hadd : add reg s ref t inp = (.ok i, s₂))
    (he : resolveElement reg ref = some e) :
    (∀ pos, inp.position = some pos → pos.right = some r →
      ∃ o, getById s₂ i = some o ∧ o.cssLeft = effectiveWidth e - r) ∧
    (∀ pos, inp.position = some pos → pos.bottom = some b →
      ∃ o, getById s₂ i = some o ∧ o.cssTop = effectiveHeight e - b) ∧
    (∀ (s' : State) (e' : Element) (o : Overlay),
      o ∈ attachedOverlays (elementChangedHandler s' e') e'.id →
      (o.position.right = some r → o.cssLeft = effectiveWidth e' - r) ∧
      (o.position.bottom = some b → o.cssTop = effectiveHeight e' - b)) := by
  obtain ⟨pos₀, e₀, hpos₀, he₀, _, _, _, hl⟩ := add_ok_spec reg s ref t inp i s₂ hadd
  have hee : e₀ = e := by
    rw [he₀] at he
    exact Option.some.inj he
  subst hee
  refine ⟨?_, ?_, ?_⟩
  · intro pos hpos hr
    rw [hpos₀] at hpos
    obtain rfl := Option.some.inj hpos
    exact ⟨_, hl, updateOverlayPos_right e₀ pos₀ r hr⟩
  · intro pos hpos hb
    rw [hpos₀] at hpos
    obtain rfl := Option.some.inj hpos
    exact ⟨_, hl, updateOverlayPos_bottom e₀ pos₀ b hb⟩
  · intro s' e' o ho
    cases hc : lookupContainer s' e'.id with
    | none =>
      rw [elementChangedHandler_of_none s' e' hc] at ho
      unfold attachedOverlays at ho
      rw [hc] at ho
      simp at ho
    | some c =>
      unfold attachedOverlays at ho
      rw [lookupContainer_elementChangedHandler s' e' c hc] at ho
      dsimp only at ho
      obtain ⟨j, hj, hlook⟩ := List.mem_filterMap.1 ho
      rw [lookupOverlay_elementChangedHandler_mem s' e' c hc j hj] at hlook
      obtain ⟨o₀, _, rfl⟩ := Option.map_eq_some'.1 hlook
      constructor
      · intro hr
        show (updateOverlayPos e' o₀.position).1 = _
        exact updateOverlayPos_right e' o₀.position r hr
      · intro hb
        show (updateOverlayPos e' o₀.position).2 = _
        exact updateOverlayPos_bottom e' o₀.position b hb

/-- C2 witness: on the 100×50 fixture shape, `right = 10`/`bottom = 5` put
the wrapper at `left = 90`, `top = 45`; after an `element.changed` with the
shape resized to 200×80 the wrapper moves to `left = 190`. -/
theorem right_bottom_offset_witness :
    (∃ o, getById stA idA = some o ∧ o.cssLeft = effectiveWidth elemA - 10) ∧
    (∃ o, getById stA idA = some o ∧ o.cssTop = effectiveHeight elemA - 5) ∧
    (applyOverlayPos elemA2 ovA).cssLeft = effectiveWidth elemA2 - 10 := by
  have h := right_bottom_offset regA initialState (.byId "s1") (some "badge")
    inpA idA stA elemA 10 5 (by rfl) (by decide)
  refine ⟨h.1 _ rfl rfl, h.2.1 _ rfl rfl, ?_⟩
  have h3 := h.2.2 stA elemA2 (applyOverlayPos elemA2 ovA) (by decide)
  exact h3.1 rfl

/-! ### C3: zoom-range visibility reconciliation -/

/-- C3: a visibility-reconciliation pass over a viewbox with scale `z` leaves
every overlay that has a `show` policy shown exactly when
`minZoom ≤ z ≤ maxZoom`, and hidden exactly when `z` lies outside that
range. -/
theorem visibility_reconciliation (s : State) (vb : Viewbox) :
    ∀ p ∈ (updateOverlayVisibilty s vb).overlays, ∀ sh,
      p.2.showPolicy = some sh →
      (p.2.visible = true ↔ sh.minZoom ≤ vb.scale ∧ vb.scale ≤ sh.maxZoom) := by
  intro p hp sh hsh
  unfold updateOverlayVisibilty at hp
  dsimp only at hp
  obtain ⟨q, _, rfl⟩ := List.mem_map.1 hp
  dsimp only at hsh ⊢
  unfold applyVisibility at hsh ⊢
  cases hq : q.2.showPolicy with
  | none =>
    rw [hq] at hsh
    dsimp only at hsh
    rw [hq] at hsh
    exact Option.noConfusion hsh
  | some sh₀ =>
    rw [hq] at hsh
    dsimp only at hsh ⊢
    rw [apply_ite Overlay.showPolicy, ite_self] at hsh
    obtain rfl := Option.some.inj hsh
    rw [apply_ite Overlay.visible]
    by_cases hcond : sh₀.minZoom > vb.scale ∨ sh₀.maxZoom < vb.scale
    · rw [if_pos hcond]
      constructor
      · intro hfalse
        exact absurd hfalse (by simp)
      · intro hle
        rcases hcond with hcond | hcond
        · exact absurd hle.1 (not_le.mpr hcond)
        · exact absurd hle.2 (not_le.mpr hcond)
    · rw [if_neg hcond]
      push_neg at hcond
      exact ⟨fun _ => ⟨hcond.1, hcond.2⟩, fun _ => rfl⟩

/-- C3 witness: the fixture overlay with `show.minZoom = 1, maxZoom = 2` is
hidden by a reconciliation pass at scale `0.5` and at scale `3`, and shown at
scale `1.5`. -/
theorem visibility_reconciliation_witness :
    (applyVisibility (vbAt (mkRat 1 2)).scale ovB).visible = false ∧
    (applyVisibility (vbAt 3).scale ovB).visible = false ∧
    (applyVisibility (vbAt (mkRat 3 2)).scale ovB).visible = true := by
  refine ⟨?_, ?_, ?_⟩
  · have h := visibility_reconciliation stB (vbAt (mkRat 1 2))
      (idB, applyVisibility (vbAt (mkRat 1 2)).scale ovB) (by decide)
      { trigger := "automatic", minZoom := 1, maxZoom := 2 } (by decide)
    cases hb : (applyVisibility (vbAt (mkRat 1 2)).scale ovB).visible
    · rfl
    · exact absurd (h.mp hb) (by decide)
  · have h := visibility_reconciliation stB (vbAt 3)
      (idB, applyVisibility (vbAt 3).scale ovB) (by decide)
      { trigger := "automatic", minZoom := 1, maxZoom := 2 } (by decide)
    cases hb : (applyVisibility (vbAt 3).scale ovB).visible
    · rfl
    · exact absurd (h.mp hb) (by decide)
  · have h := visibility_reconciliation stB (vbAt (mkRat 3 2))
      (idB, applyVisibility (vbAt (mkRat 3 2)).scale ovB) (by decide)
      { trigger := "automatic", minZoom := 1, maxZoom := 2 } (by decide)
    exact h.mpr (by decide)

/-! ### C4: `show.trigger = 'manual'` is not honoured by the code -/

/-- C4 counter-evidence: `stManual` holds a single overlay whose `show`
policy is `{ trigger: 'manual', minZoom: 1, maxZoom: 2 }` and whose wrapper
is currently shown; the code's visibility-reconciliation pass for a viewbox
at scale 3 hides it — `_updateOverlayVisibilty` never consults
`show.trigger`, so a manual-trigger overlay's shown/hidden state is not left
as last explicitly set, contrary to the claim (and to the source's own
documentation of `trigger: 'manual'` as "user triggers show"). -/
theorem manual_trigger_not_exempt :
    (getById stManual idA).map Overlay.showPolicy =
      some (some { trigger := "manual", minZoom := 1, maxZoom := 2 }) ∧
    (getById stManual idA).map Overlay.visible = some true ∧
    (getById (updateOverlayVisibilty stManual (vbAt 3)) idA).map Overlay.visible =
      some false := by
  refine ⟨by decide, by decide, by decide⟩

/-! ### C6: `remove` -/

/-- C6: removing an existing overlay id deletes it from the id map (`get`
then yields a falsy value) and splices it out of its former container's
`overlays` sequence; removing an absent id is a strict no-op, so `remove` is
idempotent. -/
theorem remove_spec (s : State) (i : OverlayId) (o : Overlay) (hWF : WF s)
    (h : lookupOverlay s i = some o) :
    lookupOverlay (remove s (.byId i)) i = none ∧
    (∀ c, lookupContainer (remove s (.byId i)) o.elementId = some c →
      i ∉ c.overlayIds) ∧
    (∀ (s' : State) (j : OverlayId), lookupOverlay s' j = none →
      remove s' (.byId j) = s') ∧
    remove (remove s (.byId i)) (.byId i) = remove s (.byId i) := by
  have hio : o.id = i := hWF.2.1 (i, o) (alookup_mem h)
  have hrm := remove_byId_of_some s i o h
  refine ⟨?_, ?_, ?_, ?_⟩
  · rw [hrm, lookupOverlay_removeOne, if_pos hio.symm]
  · intro c hc
    rw [hrm, lookupContainer_removeOne, if_pos rfl] at hc
    obtain ⟨c₀, hc₀, rfl⟩ := Option.map_eq_some'.1 hc
    have hnd : c₀.overlayIds.Nodup :=
      (hWF.2.2.2 (o.elementId, c₀) (alookup_mem hc₀)).1
    show i ∉ c₀.overlayIds.erase o.id
    rw [← hio]
    exact hnd.not_mem_erase
  · intro s' j hj
    exact remove_byId_of_none s' j hj
  · rw [hrm]
    apply remove_byId_of_none
    rw [lookupOverlay_removeOne, if_pos hio.symm]

/-- C6 witness: removing the fixture overlay makes `get` return a falsy
value, and a second identical `remove` changes nothing. -/
theorem remove_spec_witness :
    lookupOverlay (remove stA (.byId idA)) idA = none ∧
    remove (remove stA (.byId idA)) (.byId idA) = remove stA (.byId idA) := by
  have h := remove_spec stA idA ovA (by decide) (by decide)
  exact ⟨h.1, h.2.2.2⟩

/-! ### C8: `get` by element and type -/

/-- C8: `get({element, type})` returns exactly the overlays of the element's
container whose `type` matches, in insertion order (a sublist of the
container's sequence); with no container the result is empty; without a
`type` filter the result is the container's overlays sequence (a shallow
copy in JS — copying is identity in this functional model). -/
theorem get_by_element_spec (s : State) (elementId : String) (t : String) :
    (lookupContainer s elementId = none →
      ∀ t? : Option String, getByElement s elementId t? = []) ∧
    getByElement s elementId none = attachedOverlays s elementId ∧
    List.Sublist (getByElement s elementId (some t))
      (attachedOverlays s elementId) ∧
    (∀ o, o ∈ getByElement s elementId (some t) ↔
      o ∈ attachedOverlays s elementId ∧ o.type = some t) := by
  unfold getByElement attachedOverlays
  cases hc : lookupContainer s elementId with
  | none =>
    refine ⟨fun _ t? => by cases t? <;> rfl, rfl, List.nil_sublist _, ?_⟩
    intro o
    simp
  | some c =>
    refine ⟨fun hh => absurd hh (by simp), rfl, ?_, ?_⟩
    · dsimp only
      exact List.filter_sublist _
    · intro o
      dsimp only
      rw [List.mem_filter]
      constructor
      · rintro ⟨h1, h2⟩
        exact ⟨h1, by simpa using h2⟩
      · rintro ⟨h1, h2⟩
        exact ⟨h1, by simpa using h2⟩

/-- C8 witness: in the two-overlay fixture state, filtering by
`type = 'badge'` keeps the badge overlay and drops the untyped one; an
element without a container yields the empty list; the unfiltered query
yields the container's sequence. -/
theorem get_by_element_spec_witness :
    getByElement stB "zz" (some "badge") = [] ∧
    getByElement stB "s1" none = attachedOverlays stB "s1" ∧
    ovA ∈ getByElement stB "s1" (some "badge") ∧
    ovB ∉ getByElement stB "s1" (some "badge") := by
  have h := get_by_element_spec stB "zz" "badge"
  have h2 := get_by_element_spec stB "s1" "badge"
  refine ⟨h.1 (by decide) (some "badge"), h2.2.1, ?_, ?_⟩
  · exact (h2.2.2.2 ovA).mpr ⟨by decide, by decide⟩
  · intro hm
    exact absurd ((h2.2.2.2 ovB).mp hm).2 (by decide)

/-! ### C7: element removal removes all its overlays -/

theorem map_id_filterMap_sublist (s : State)
    (hB : ∀ p ∈ s.overlays, p.2.id = p.1) :
    ∀ ids : List OverlayId,
      List.Sublist ((ids.filterMap (lookupOverlay s)).map Overlay.id) ids := by
  intro ids
  induction ids with
  | nil => simp
  | cons j tl ih =>
    cases hl : lookupOverlay s j with
    | none =>
      rw [List.filterMap_cons_none hl]
      exact ih.cons j
    | some o =>
      rw [List.filterMap_cons_some hl, List.map_cons]
      rw [hB (j, o) (alookup_mem hl)]
      exact ih.cons₂ j

/-- The effect of folding `remove(o.id)` over a list of overlays that are all
present in the state and attached to the element `eid`: each of them ends up
deleted from the id map and absent from `eid`'s container's id list; lookups
that were already `none` stay `none`; ids already absent from the container
stay absent. -/
theorem removeFold_spec (eid : String) :
    ∀ (F : List Overlay) (s : State),
      (∀ o ∈ F, lookupOverlay s o.id = some o ∧ o.elementId = eid) →
      (F.map Overlay.id).Nodup →
      (∀ c, lookupContainer s eid = some c → c.overlayIds.Nodup) →
      (∀ o ∈ F,
        lookupOverlay (F.foldl (fun s o => remove s (.byId o.id)) s) o.id = none ∧
        (∀ c, lookupContainer (F.foldl (fun s o => remove s (.byId o.id)) s) eid =
            some c → o.id ∉ c.overlayIds)) ∧
      (∀ j, lookupOverlay s j = none →
        lookupOverlay (F.foldl (fun s o => remove s (.byId o.id)) s) j = none) ∧
      (∀ j, (∀ c, lookupContainer s eid = some c → j ∉ c.overlayIds) →
        (∀ c, lookupContainer (F.foldl (fun s o => remove s (.byId o.id)) s) eid =
            some c → j ∉ c.overlayIds)) := by
  intro F
  induction F with
  | nil =>
    intro s h1 h2 h3
    exact ⟨fun o ho => absurd ho (List.not_mem_nil o), fun j hj => hj,
      fun j hj => hj⟩
  | cons o₀ F' ih =>
    intro s h1 h2 h3
    have ho₀ := h1 o₀ (List.mem_cons_self _ _)
    have hstep : remove s (.byId o₀.id) = removeOne s o₀ :=
      remove_byId_of_some _ _ _ ho₀.1
    rw [List.map_cons, List.nodup_cons] at h2
    simp only [List.foldl_cons, hstep]
    have hA : ∀ o ∈ F', lookupOverlay (removeOne s o₀) o.id = some o ∧
        o.elementId = eid := by
      intro o ho
      have hh := h1 o (List.mem_cons_of_mem _ ho)
      refine ⟨?_, hh.2⟩
      rw [lookupOverlay_removeOne]
      have hne : o.id ≠ o₀.id := fun hcontra =>
        h2.1 (hcontra ▸ List.mem_map_of_mem Overlay.id ho)
      rw [if_neg hne]
      exact hh.1
    have hC : ∀ c, lookupContainer (removeOne s o₀) eid = some c →
        c.overlayIds.Nodup := by
      intro c hcc
      rw [lookupContainer_removeOne] at hcc
      by_cases hcd : eid = o₀.elementId
      · rw [if_pos hcd] at hcc
        obtain ⟨c₀, hc₀, rfl⟩ := Option.map_eq_some'.1 hcc
        exact (h3 c₀ hc₀).erase _
      · rw [if_neg hcd] at hcc
        exact h3 c hcc
    obtain ⟨ih1, ih2, ih3⟩ := ih (removeOne s o₀) hA h2.2 hC
    refine ⟨?_, ?_, ?_⟩
    · intro o ho
      rcases List.mem_cons.1 ho with rfl | ho'
      · constructor
        · apply ih2
          rw [lookupOverlay_removeOne, if_pos rfl]
        · apply ih3
          intro c hcc
          rw [lookupContainer_removeOne, if_pos ho₀.2.symm] at hcc
          obtain ⟨c₀, hc₀, rfl⟩ := Option.map_eq_some'.1 hcc
          exact (h3 c₀ hc₀).not_mem_erase
      · exact ih1 o ho'
    · intro j hj
      apply ih2
      rw [lookupOverlay_removeOne]
      by_cases hje : j = o₀.id
      · rw [if_pos hje]
      · rw [if_neg hje]
        exact hj
    · intro j hj
      apply ih3
      intro c hcc
      rw [lookupContainer_removeOne] at hcc
      by_cases hcd : eid = o₀.elementId
      · rw [if_pos hcd] at hcc
        obtain ⟨c₀, hc₀, rfl⟩ := Option.map_eq_some'.1 hcc
        intro hmem
        exact hj c₀ hc₀ ((List.erase_sublist _ _).mem hmem)
      · rw [if_neg hcd] at hcc
        exact hj c hcc

/-- C7: after the `shape.remove`/`connection.remove` handler runs for element
`eid`, no overlay previously attached to it remains — each is deleted from
the id map and absent from the container's `overlays` id sequence. -/
theorem element_remove_removes_all (s : State) (eid : String) (hWF : WF s) :
    ∀ o ∈ attachedOverlays s eid,
      lookupOverlay (elementRemoveHandler s eid) o.id = none ∧
      ∀ c, lookupContainer (elementRemoveHandler s eid) eid = some c →
        o.id ∉ c.overlayIds := by
  have hF : getByElement s eid none = attachedOverlays s eid := by
    unfold getByElement attachedOverlays
    cases lookupContainer s eid <;> rfl
  unfold elementRemoveHandler
  rw [hF]
  cases hc : lookupContainer s eid with
  | none =>
    have hnil : attachedOverlays s eid = [] := by
      unfold attachedOverlays
      rw [hc]
    rw [hnil]
    intro o ho
    exact absurd ho (List.not_mem_nil o)
  | some c =>
    have hmem : ∀ o ∈ attachedOverlays s eid,
        lookupOverlay s o.id = some o ∧ o.elementId = eid := by
      intro o ho
      unfold attachedOverlays at ho
      rw [hc] at ho
      dsimp only at ho
      obtain ⟨j, hj, hlook⟩ := List.mem_filterMap.1 ho
      have hid : o.id = j := hWF.2.1 (j, o) (alookup_mem hlook)
      constructor
      · rw [hid]
        exact hlook
      · have hD := (hWF.2.2.2 (eid, c) (alookup_mem hc)).2 j hj
        rw [hlook] at hD
        simpa using hD
    have hnd : ((attachedOverlays s eid).map Overlay.id).Nodup := by
      have hsub : List.Sublist ((attachedOverlays s eid).map Overlay.id)
          c.overlayIds := by
        unfold attachedOverlays
        rw [hc]
        exact map_id_filterMap_sublist s hWF.2.1 c.overlayIds
      exact ((hWF.2.2.2 (eid, c) (alookup_mem hc)).1).sublist hsub
    have hcnd : ∀ c', lookupContainer s eid = some c' →
        c'.overlayIds.Nodup := by
      intro c' hc'
      rw [hc] at hc'
      obtain rfl := Option.some.inj hc'
      exact (hWF.2.2.2 (eid, c) (alookup_mem hc)).1
    exact (removeFold_spec eid (attachedOverlays s eid) s hmem hnd hcnd).1

/-- C7 witness: in the two-overlay fixture state, the removal handler for
`s1` deletes both overlays from the id map. -/
theorem element_remove_removes_all_witness :
    lookupOverlay (elementRemoveHandler stB "s1") idA = none ∧
    lookupOverlay (elementRemoveHandler stB "s1") idB = none := by
  have h := element_remove_removes_all stB "s1" (by decide)
  exact ⟨(h ovA (by decide)).1, (h ovB (by decide)).1⟩

/-! ### C9: debounced viewbox bursts -/

theorem hideRoot_hideRoot (s : State) : hideRoot (hideRoot s) = hideRoot s := rfl

theorem runViewboxEvents_nil_some (w : Nat) (s : State) (d : Nat)
    (v : Viewbox) :
    runViewboxEvents w s (some (d, v)) [] = (fireUpdate s v, [(d, v)]) := rfl

theorem runViewboxEvents_cons_none (w : Nat) (s : State) (t : Nat)
    (vb : Viewbox) (rest : List (Nat × Viewbox)) :
    runViewboxEvents w s none ((t, vb) :: rest) =
      runViewboxEvents w (hideRoot s) (some (t + w, vb)) rest := rfl

theorem runViewboxEvents_cons_no_fire (w : Nat) (s : State) (d t : Nat)
    (v vb : Viewbox) (rest : List (Nat × Viewbox)) (h : ¬ d ≤ t) :
    runViewboxEvents w s (some (d, v)) ((t, vb) :: rest) =
      runViewboxEvents w (hideRoot s) (some (t + w, vb)) rest := by
  simp only [runViewboxEvents]
  rw [if_neg h]
  rfl

/-- A pending trailing call whose deadline lies beyond the next event never
fires: a burst with gaps shorter than the window coalesces into the single
trailing invocation of the last event. -/
theorem run_pending_burst (w : Nat) :
    ∀ (events : List (Nat × Viewbox)) (s : State) (d : Nat) (v : Viewbox)
      (hne : events ≠ []),
      events.Chain' (fun a b => b.1 < a.1 + w) →
      (∀ e₀ ∈ events.head?, e₀.1 < d) →
      runViewboxEvents w s (some (d, v)) events =
        (fireUpdate (hideRoot s) (events.getLast hne).2,
          [((events.getLast hne).1 + w, (events.getLast hne).2)]) := by
  intro events
  induction events with
  | nil =>
    intro s d v hne _ _
    exact absurd rfl hne
  | cons e rest ih =>
    intro s d v hne hchain hd
    obtain ⟨t, vb⟩ := e
    have hlt : t < d := hd (t, vb) rfl
    rw [runViewboxEvents_cons_no_fire w s d t v vb rest (by omega)]
    cases rest with
    | nil =>
      rw [runViewboxEvents_nil_some]
      rfl
    | cons r rest' =>
      have hne' : r :: rest' ≠ [] := List.cons_ne_nil _ _
      have hrel : r.1 < t + w := (List.chain'_cons.1 hchain).1
      rw [ih (hideRoot s) (t + w) vb hne' (List.chain'_cons.1 hchain).2
        (fun e₀ he => by
          simp only [List.head?_cons, Option.mem_def, Option.some.injEq] at he
          rw [← he]
          exact hrel)]
      rw [hideRoot_hideRoot, List.getLast_cons hne']

/-- C9: with `deferUpdate` at its default, a burst of `canvas.viewbox.changed`
events whose gaps are all shorter than the debounce window produces exactly
one trailing `updateViewbox` invocation — i.e. one `_updateOverlayVisibilty`
pass — scheduled one window after the last event and carrying the last
event's viewbox; every earlier pending trailing call is cancelled and
replaced, never queued. -/
theorem debounce_single_pass (w : Nat) (s : State)
    (events : List (Nat × Viewbox)) (hne : events ≠ [])
    (hchain : events.Chain' (fun a b => a.1 ≤ b.1 ∧ b.1 < a.1 + w)) :
    runViewboxEvents w s none events =
      (fireUpdate (hideRoot s) (events.getLast hne).2,
        [((events.getLast hne).1 + w, (events.getLast hne).2)]) := by
  cases events with
  | nil => exact absurd rfl hne
  | cons e rest =>
    obtain ⟨t, vb⟩ := e
    rw [runViewboxEvents_cons_none]
    cases rest with
    | nil =>
      rw [runViewboxEvents_nil_some]
      rfl
    | cons r rest' =>
      have hne' : r :: rest' ≠ [] := List.cons_ne_nil _ _
      have hch := List.chain'_cons.1 hchain
      rw [run_pending_burst w (r :: rest') (hideRoot s) (t + w) vb hne'
        (List.Chain'.imp (fun a b hab => hab.2) hch.2)
        (fun e₀ he => by
          simp only [List.head?_cons, Option.mem_def, Option.some.injEq] at he
          rw [← he]
          exact hch.1.2)]
      rw [hideRoot_hideRoot, List.getLast_cons hne']

/-- C9 witness: three viewbox events at 0 ms, 50 ms, 100 ms under the default
300 ms debounce produce exactly one update invocation, at 400 ms, with the
final viewbox. -/
theorem debounce_single_pass_witness :
    runViewboxEvents debounceWait initialState none
      [(0, vbAt 1), (50, vbAt 2), (100, vbAt 3)] =
      (fireUpdate (hideRoot initialState) (vbAt 3), [(400, vbAt 3)]) := by
  have h := debounce_single_pass debounceWait initialState
    [(0, vbAt 1), (50, vbAt 2), (100, vbAt 3)] (List.cons_ne_nil _ _)
    (List.chain'_cons.2 ⟨by decide,
      List.chain'_cons.2 ⟨by decide, List.chain'_singleton _⟩⟩)
  exact h

/-! ### C10: every viewbox event synchronously hides the overlay root -/

theorem removeOne_foldl_rootVisible (l : List Overlay) :
    ∀ s : State, (l.foldl removeOne s).rootVisible = s.rootVisible := by
  induction l with
  | nil => intro s; rfl
  | cons o t ih =>
    intro s
    rw [List.foldl_cons, ih (removeOne s o), removeOne_rootVisible]

theorem remove_rootVisible (s : State) (x : Search) :
    (remove s x).rootVisible = s.rootVisible := by
  unfold remove
  exact removeOne_foldl_rootVisible _ s

theorem foldl_remove_byId_rootVisible (l : List Overlay) :
    ∀ s : State,
      (l.foldl (fun s o => remove s (.byId o.id)) s).rootVisible =
        s.rootVisible := by
  induction l with
  | nil => intro s; rfl
  | cons o t ih =>
    intro s
    rw [List.foldl_cons, ih, remove_rootVisible]

theorem elementRemoveHandler_rootVisible (s : State) (eid : String) :
    (elementRemoveHandler s eid).rootVisible = s.rootVisible := by
  unfold elementRemoveHandler
  exact foldl_remove_byId_rootVisible _ s

theorem elementChangedHandler_rootVisible (s : State) (e : Element) :
    (elementChangedHandler s e).rootVisible = s.rootVisible := by
  unfold elementChangedHandler
  split <;> rfl

/-- C10: processing a `canvas.viewbox.changed` event synchronously hides the
overlay root before any reconciliation (the overlays themselves are not
touched, a trailing update is merely (re)scheduled), so while the update is
pending every overlay is effectively invisible regardless of its `show`
policy; the root becomes visible again exactly when the debounced update pass
(`_updateRoot`; `_updateOverlayVisibilty`; `show()`) runs — no other
operation (`remove`, the element-changed or element-removal handlers) ever
changes the root's visibility. -/
theorem viewbox_event_hides_root (w : Nat) (s : State) (now : Nat)
    (vb : Viewbox) :
    ((onViewboxChanged w s now vb).1.rootVisible = false ∧
      (onViewboxChanged w s now vb).1.overlays = s.overlays ∧
      (onViewboxChanged w s now vb).2 = some (now + w, vb)) ∧
    (∀ p ∈ (onViewboxChanged w s now vb).1.overlays,
      effectiveVisible (onViewboxChanged w s now vb).1 p.2 = false) ∧
    (fireUpdate s vb).rootVisible = true ∧
    (∀ (s' : State) (e : Element),
      (elementChangedHandler s' e).rootVisible = s'.rootVisible) ∧
    (∀ (s' : State) (eid : String),
      (elementRemoveHandler s' eid).rootVisible = s'.rootVisible) ∧
    (∀ (s' : State) (x : Search),
      (remove s' x).rootVisible = s'.rootVisible) := by
  refine ⟨⟨rfl, rfl, rfl⟩, ?_, rfl, elementChangedHandler_rootVisible,
    elementRemoveHandler_rootVisible, remove_rootVisible⟩
  intro p _
  rfl

/-- C10 witness: a viewbox event over the two-overlay fixture state hides the
root, makes the shown overlay `ovB` effectively invisible, and the update
pass turns the root back on. -/
theorem viewbox_event_hides_root_witness :
    (onViewboxChanged debounceWait stB 0 (vbAt 1)).1.rootVisible = false ∧
    effectiveVisible (onViewboxChanged debounceWait stB 0 (vbAt 1)).1 ovB =
      false ∧
    (fireUpdate stB (vbAt 1)).rootVisible = true := by
  have h := viewbox_event_hides_root debounceWait stB 0 (vbAt 1)
  exact ⟨h.1.1, h.2.1 (idB, ovB) (by decide), h.2.2.1⟩

end Overlays
